import Mathlib

/-!
# Verification of the `generic2` / `switch` Schedy actors

A shallow embedding of `hass_apps/schedy/actor/generic2.py` and
`hass_apps/schedy/actor/switch.py`.

Modelling conventions:

* Python scalar values are `PyScalar`.  Python `float` is modelled as a
  rational number (no float arithmetic occurs in the code, only equality
  tests; NaN payloads are not modelled).  Python `bool` is a distinct
  constructor because `isinstance(b, int)` is true for booleans; `other`
  stands for any object of a type outside `ALLOWED_VALUE_TYPES`.
* Python `==` between scalars is `pyEq`: numeric values (`float`, `int`,
  `bool`) compare by numeric value, strings by content, `None` only to
  itself.
* Nested service data (`dict` / `list` / scalar trees) is `PyObj`; dicts
  are association lists with string keys and first-key-wins lookup, which
  matches Python dicts whose keys are unique.
* `_populate_service_data` begins with `memo = set((data,))` (line 79).
  `data` is always a dict there — the schema coerces every `data` entry
  to a dict and `do_send` passes `copy.deepcopy(call_cfg["data"])` — and
  Python dicts are unhashable, so this statement raises
  `TypeError: unhashable type` unconditionally, before the worklist loop
  starts and before any string is formatted.  The embedding models this
  raise faithfully (`populate_service_data` returns `Option.none`), so
  `do_send` aborts its first loop iteration for every matched rule with
  a non-empty `calls` list and never invokes a service.  (The formatting
  statement `value.format(fmt)` at line 90 is therefore unreachable; it
  would itself pass the dict positionally, so a named placeholder would
  raise `KeyError` even if control reached it.)
* The keys of the substitution dict built in `do_send` are the Python
  strings `"entity_id"` and `"slot{idx}"`.  They are modelled by the
  inductive `FmtKey`, which bakes in the (true) facts that `slot{i}` and
  `slot{j}` are equal strings iff `i = j` and that no `slot{i}` equals
  `"entity_id"`.
* Exceptions (`ValueError`, `TypeError`) are modelled by `Option.none`
  results; `do_send` additionally reports which invocations were
  performed before an exception escaped.
* `sorted(v, key=lambda k: -len(k["slots"]))` is a stable sort by
  descending slot count.  A stable sort's output is uniquely determined
  by the key function, so the insertion sort `sortValues` below is
  extensionally the same function.
-/

namespace HassApps.Schedy.Generic2

/-- Python scalar values appearing in slot patterns and value tuples. -/
inductive PyScalar where
  | float (q : ℚ)
  | int (n : ℤ)
  | bool (b : Bool)
  | str (s : String)
  | none
  | other (tag : String)
deriving DecidableEq

/-- The numeric value of a Python scalar, when it has one (`float`,
`int` and `bool` are all numbers for `==` purposes in Python). -/
def PyScalar.numVal : PyScalar → Option ℚ
  | .float q => some q
  | .int n => some (n : ℚ)
  | .bool b => some (if b then 1 else 0)
  | _ => Option.none

/-- Python `==` on scalars. -/
def pyEq (a b : PyScalar) : Bool :=
  match a.numVal, b.numVal with
  | some x, some y => x == y
  | _, _ =>
    match a, b with
    | .str s, .str t => s == t
    | .none, .none => true
    | .other s, .other t => s == t
    | _, _ => false

/-- `isinstance(item, ALLOWED_VALUE_TYPES)` where
`ALLOWED_VALUE_TYPES = (float, int, str, type(None))`.  Booleans pass
because `bool` is a subclass of `int` in Python. -/
def isAllowedType : PyScalar → Bool
  | .other _ => false
  | _ => true

/-- `WILDCARD_VALUE = "*"`. -/
def WILDCARD_VALUE : PyScalar := .str "*"

/-- Argument of `validate_value`: a plain scalar, a list or a tuple. -/
inductive PyRaw where
  | scalar (v : PyScalar)
  | list (xs : List PyScalar)
  | tuple (xs : List PyScalar)

/-- `Generic2Actor.validate_value`: lists/tuples keep their items, a
scalar becomes a 1-tuple; then every item must satisfy the
`isinstance` check against `ALLOWED_VALUE_TYPES`, otherwise a
`ValueError` is raised (modelled by `Option.none`). -/
def validate_value (value : PyRaw) : Option (List PyScalar) :=
  let items : List PyScalar :=
    match value with
    | .list xs => xs
    | .tuple xs => xs
    | .scalar v => [v]
  if items.all isAllowedType then some items else Option.none

/-- Nested Python service-data structures: scalars, dicts and lists. -/
inductive PyObj where
  | leaf (v : PyScalar)
  | dict (entries : List (String × PyObj))
  | arr (items : List PyObj)

/-- Keys of the substitution dict `fmt` built by `do_send`:
`"entity_id"` and `"slot{idx}"`. -/
inductive FmtKey where
  | entity_id
  | slot (i : Nat)
deriving DecidableEq

/-- The substitution dict passed to `str.format`. -/
abbrev Fmt := List (FmtKey × PyScalar)

/-- One configured entry of a `calls` list: a service name, a (dict)
`data` template and the `include_entity_id` flag (default `true`). -/
structure CallCfg where
  service : String
  data : List (String × PyObj)
  include_entity_id : Bool

/-- One configured entry of the `values` list: a slot pattern and its
`calls`. -/
structure ValueCfg where
  slots : List PyScalar
  calls : List CallCfg

/-- One configured entry of the `slots` list; the field is the source's
`"attribute"` key (`attribute` is a Lean keyword). -/
structure SlotCfg where
  attr : String

/-- The inner loop of `_find_value_cfg`: the pattern matches when the
lengths agree and at each index the pattern element `== "*"` or
`== value[idx]` (Python `slot not in (WILDCARD_VALUE, value[idx])`
negated). -/
def patternMatches (slots value : List PyScalar) : Bool :=
  slots.length == value.length &&
    (slots.zip value).all (fun p => pyEq p.1 WILDCARD_VALUE || pyEq p.1 p.2)

/-- `Generic2Actor._find_value_cfg`: scan `self.cfg["values"]` in list
order and return the first entry whose pattern matches; raising
`ValueError` when none does is modelled by `Option.none`. -/
def findValueCfg (values : List ValueCfg) (value : List PyScalar) : Option ValueCfg :=
  values.find? (fun vc => patternMatches vc.slots value)

/-- Python hashability of a service-data value: scalars are hashable,
dicts and lists are not. -/
def pyHashable : PyObj → Bool
  | .leaf _ => true
  | .dict _ => false
  | .arr _ => false

/-- `Generic2Actor._populate_service_data(data, fmt)` as called from
`do_send`, where `data` is always a dict (the schema coerces every
`data` entry to a dict).  Its first statement `memo = set((data,))`
must hash `data`; a dict is unhashable, so the call raises
`TypeError: unhashable type` unconditionally — before the worklist
loop starts and before any string is formatted.  `Option.none` models
the raised `TypeError`: the substituted dict described by the spec is
never produced. -/
def populate_service_data (_fmt : Fmt) (data : List (String × PyObj)) :
    Option (List (String × PyObj)) :=
  if pyHashable (.dict data) then some data else Option.none

/-- The substitution dict built at the start of `do_send`:
`{"entity_id": self.entity_id}` plus, for each configured slot index
`idx`, `fmt["slot{idx}"] = value[idx] if idx < len(value) else None`. -/
def buildFmt (slots : List SlotCfg) (entityId : String) (value : List PyScalar) : Fmt :=
  (FmtKey.entity_id, PyScalar.str entityId) ::
    (List.range slots.length).map (fun i => (FmtKey.slot i, value.getD i PyScalar.none))

/-- `dict.setdefault(k, v)`: keep the dict if the key is present,
otherwise append the binding. -/
def setdefault (d : List (String × PyObj)) (k : String) (v : PyObj) :
    List (String × PyObj) :=
  if (d.lookup k).isSome then d else d ++ [(k, v)]

/-- A performed external invocation: `self.app.call_service(service, **data)`. -/
structure ServiceCall where
  service : String
  data : List (String × PyObj)

/-- The body of one iteration of the `for call_cfg in ...` loop of
`do_send`: `data = copy.deepcopy(call_cfg["data"])` (succeeds), then
`self._populate_service_data(data, fmt)` — which raises `TypeError` —
then, unreachably, the `include_entity_id` `setdefault` and the
service call.  `Option.none` models the escaped exception: the
iteration performs no invocation. -/
def runCall (fmt : Fmt) (entityId : String) (call : CallCfg) :
    Option ServiceCall :=
  match populate_service_data fmt call.data with
  | Option.none => Option.none
  | some data =>
    let data :=
      if call.include_entity_id then setdefault data "entity_id" (.leaf (.str entityId))
      else data
    some { service := call.service, data := data }

/-- The calls loop of `do_send`: the invocations performed in order,
paired with `true` when the loop finished normally and `false` when an
iteration raised (aborting the loop after the invocations already
made). -/
def runCalls (fmt : Fmt) (entityId : String) :
    List CallCfg → List ServiceCall × Bool
  | [] => ([], true)
  | call :: rest =>
    match runCall fmt entityId call with
    | Option.none => ([], false)
    | some sc =>
      match runCalls fmt entityId rest with
      | (scs, ok) => (sc :: scs, ok)

/-- `Generic2Actor.do_send` as a function of the wanted value (the
spec's `execute(V)`): build `fmt`, find the value configuration and
iterate over its calls.  Outer `Option.none` models the `ValueError`
of `_find_value_cfg`; otherwise the result lists the invocations
actually performed plus whether the loop completed — `false` records
the `TypeError` that `_populate_service_data` raises on the first
iteration whenever the matched rule's `calls` list is non-empty. -/
def do_send (slots : List SlotCfg) (values : List ValueCfg)
    (entityId : String) (value : List PyScalar) :
    Option (List ServiceCall × Bool) :=
  let fmt := buildFmt slots entityId value
  (findValueCfg values value).map (fun vc => runCalls fmt entityId vc.calls)

/-- `Generic2Actor.filter_set_value`: return the value unchanged when
`_find_value_cfg` succeeds, otherwise catch the `ValueError`, log and
return `None`. -/
def filter_set_value (values : List ValueCfg) (value : List PyScalar) :
    Option (List PyScalar) :=
  match findValueCfg values value with
  | some _ => some value
  | Option.none => Option.none

/-- The first loop of `notify_state_changed`: one item per configured
slot, `attrs.get(attr)` with `None` for missing attributes. -/
def buildObserved (slots : List SlotCfg) (attrs : List (String × PyScalar)) :
    List PyScalar :=
  slots.map (fun sc => (attrs.lookup sc.attr).getD PyScalar.none)

/-- The `for size in range(len(tpl), -1, -1)` loop of
`notify_state_changed`, called with `size = tpl.length` initially:
return the first prefix `tpl[:size]` that `_find_value_cfg` accepts. -/
def tryLengths (values : List ValueCfg) (tpl : List PyScalar) : Nat → Option (List PyScalar)
  | 0 => if (findValueCfg values []).isSome then some [] else Option.none
  | k + 1 =>
    if (findValueCfg values (tpl.take (k + 1))).isSome then some (tpl.take (k + 1))
    else tryLengths values tpl k

/-- `Generic2Actor.notify_state_changed`: observed items, then the
longest matching prefix; `Option.none` is the warned, unrecognized
outcome. -/
def notify_state_changed (slots : List SlotCfg) (values : List ValueCfg)
    (attrs : List (String × PyScalar)) : Option (List PyScalar) :=
  let tpl := buildObserved slots attrs
  tryLengths values tpl tpl.length

/-- Stable insertion of one `values` entry by descending slot count. -/
def insertByLen (vc : ValueCfg) : List ValueCfg → List ValueCfg
  | [] => [vc]
  | c :: cs =>
    if c.slots.length ≤ vc.slots.length then vc :: c :: cs
    else c :: insertByLen vc cs

/-- The schema's `lambda v: sorted(v, key=lambda k: -len(k["slots"]))`:
a stable sort by descending number of slots, run once at configuration
load time.  Python's `sorted` is stable and the output of a stable sort
is uniquely determined by the key, so this insertion sort is
extensionally the same function. -/
def sortValues : List ValueCfg → List ValueCfg
  | [] => []
  | vc :: cs => insertByLen vc (sortValues cs)

/-- `SwitchActor.config_defaults["slots"]`. -/
def switchSlots : List SlotCfg := [{ attr := "state" }]

/-- `SwitchActor.config_defaults["values"]` as written in `switch.py`
(data defaults to `{}`, `include_entity_id` defaults to `true` via the
schema). -/
def switchValuesRaw : List ValueCfg :=
  [ { slots := [PyScalar.str "on"],
      calls := [{ service := "homeassistant/turn_on", data := [],
                  include_entity_id := true }] },
    { slots := [PyScalar.str "off"],
      calls := [{ service := "homeassistant/turn_off", data := [],
                  include_entity_id := true }] } ]

/-- The switch actor's rule table after schema validation (sorted). -/
def switchValues : List ValueCfg := sortValues switchValuesRaw

/-- Among the configured (pre-sort) `values` entries, `vc` is the
earliest entry of `vc`'s own pattern length that matches `value`:
the head of the configured list filtered to matching entries of that
length. -/
def firstOfItsLength (raw : List ValueCfg) (value : List PyScalar)
    (vc : ValueCfg) : Prop :=
  (raw.filter (fun c => patternMatches c.slots value &&
    (c.slots.length == vc.slots.length))).head? = some vc

/-- A `values` entry used by concrete witnesses: a one-slot wildcard. -/
def demoV1 : ValueCfg :=
  { slots := [.str "*"],
    calls := [{ service := "svc/one", data := [], include_entity_id := true }] }

/-- A `values` entry used by concrete witnesses: an exact two-slot rule. -/
def demoV2 : ValueCfg :=
  { slots := [.int 1, .int 2],
    calls := [{ service := "svc/two", data := [], include_entity_id := false }] }

/-- A `values` entry used by concrete witnesses: a two-slot rule with a
wildcard in the first position. -/
def demoV3 : ValueCfg :=
  { slots := [.str "*", .int 2],
    calls := [{ service := "svc/three", data := [], include_entity_id := true }] }

/-- A configured `values` list (pre-sort order) used by witnesses. -/
def demoValues : List ValueCfg := [demoV1, demoV2, demoV3]

/-!
## A mutable-heap model for the deep-copy step

`do_send` runs `data = copy.deepcopy(call_cfg["data"])` and then mutates
`data` in place via the worklist of `_populate_service_data`.  To state
that the configured templates are never mutated, Python objects are
given explicit addresses: containers live in a heap, scalars are
immutable values.
-/

/- Heap addresses (Python object identities of containers) are plain
naturals. -/

/-- A value stored inside a container: an immutable scalar or a
reference to another container. -/
inductive HVal where
  | leaf (v : PyScalar)
  | ref (a : Nat)
deriving DecidableEq

/-- A heap object: a Python dict or list container. -/
inductive HObj where
  | hdict (es : List (String × HVal))
  | harr (xs : List HVal)
deriving DecidableEq

/-- The heap: an association list from addresses to container objects
(first binding wins). -/
abbrev Heap := List (Nat × HObj)

/-- Read the object at an address. -/
def Heap.look (h : Heap) (a : Nat) : Option HObj :=
  List.lookup a h

/-- In-place update of the object at an (existing) address. -/
def Heap.write : Heap → Nat → HObj → Heap
  | [], _, _ => []
  | (b, o) :: h, a, o' =>
    if b = a then (a, o') :: h else (b, o) :: Heap.write h a o'

/-- Copy a list of dict entries with the given one-value copier,
threading the heap and the allocation counter. -/
def copyEntries (f : Heap → HVal → Nat → Option (Heap × HVal × Nat)) :
    Heap → List (String × HVal) → Nat →
    Option (Heap × List (String × HVal) × Nat)
  | h, [], n => some (h, [], n)
  | h, (k, v) :: es, n =>
    match f h v n with
    | Option.none => Option.none
    | some (h1, w, n1) =>
      match copyEntries f h1 es n1 with
      | Option.none => Option.none
      | some (h2, ws, n2) => some (h2, (k, w) :: ws, n2)

/-- Copy a list of values with the given one-value copier, threading
the heap and the allocation counter. -/
def copyItems (f : Heap → HVal → Nat → Option (Heap × HVal × Nat)) :
    Heap → List HVal → Nat → Option (Heap × List HVal × Nat)
  | h, [], n => some (h, [], n)
  | h, v :: xs, n =>
    match f h v n with
    | Option.none => Option.none
    | some (h1, w, n1) =>
      match copyItems f h1 xs n1 with
      | Option.none => Option.none
      | some (h2, ws, n2) => some (h2, w :: ws, n2)

/-- `copy.deepcopy` on the heap: copy the containers reachable from a
value into fresh addresses, threading the heap and the allocation
counter.  Fuel-bounded: configuration data is finite and acyclic
(trees from YAML); `deepcopy`'s memoized sharing is immaterial to the
frame property proved below. -/
def deepcopyH : Nat → Heap → HVal → Nat → Option (Heap × HVal × Nat)
  | _, h, .leaf v, n => some (h, .leaf v, n)
  | 0, _, .ref _, _ => Option.none
  | fuel + 1, h, .ref a, n =>
    match h.look a with
    | Option.none => Option.none
    | some (.hdict es) =>
      match copyEntries (fun h v n => deepcopyH fuel h v n) h es n with
      | Option.none => Option.none
      | some (h1, es1, n1) => some ((n1, .hdict es1) :: h1, .ref n1, n1 + 1)
    | some (.harr xs) =>
      match copyItems (fun h v n => deepcopyH fuel h v n) h xs n with
      | Option.none => Option.none
      | some (h1, xs1, n1) => some ((n1, .harr xs1) :: h1, .ref n1, n1 + 1)

/-- The container children of an object (used to state that the fresh
copy region is closed under references). -/
def childRefs : HObj → List Nat
  | .hdict es => es.filterMap (fun kv =>
      match kv.2 with
      | .ref a => some a
      | .leaf _ => Option.none)
  | .harr xs => xs.filterMap (fun w =>
      match w with
      | .ref a => some a
      | .leaf _ => Option.none)

/-- `_populate_service_data(data, fmt)` on the heap:
`memo = set((data,))` hashes `data`.  A reference — the dict or list
`do_send` always passes — is unhashable, so the statement raises
`TypeError` before the worklist loop starts and before a single heap
write; `Option.none` models the raise.  A scalar argument would build
the set, be popped, fail the dict/list test and leave the heap
untouched. -/
def populateHTop (h : Heap) : HVal → Option Heap
  | .ref _ => Option.none
  | .leaf _ => some h

/-- Read a list of dict entries back with the given one-value reader. -/
def readEntries (f : HVal → Option PyObj) :
    List (String × HVal) → Option (List (String × PyObj))
  | [] => some []
  | (k, v) :: es =>
    match f v with
    | Option.none => Option.none
    | some o =>
      match readEntries f es with
      | Option.none => Option.none
      | some os => some ((k, o) :: os)

/-- Read a list of values back with the given one-value reader. -/
def readItems (f : HVal → Option PyObj) : List HVal → Option (List PyObj)
  | [] => some []
  | v :: xs =>
    match f v with
    | Option.none => Option.none
    | some o =>
      match readItems f xs with
      | Option.none => Option.none
      | some os => some (o :: os)

/-- Read the tree rooted at a heap value back as a `PyObj`
(fuel-bounded). -/
def readBack : Nat → Heap → HVal → Option PyObj
  | _, _, .leaf v => some (.leaf v)
  | 0, _, .ref _ => Option.none
  | fuel + 1, h, .ref a =>
    match h.look a with
    | Option.none => Option.none
    | some (.hdict es) =>
      match readEntries (fun v => readBack fuel h v) es with
      | Option.none => Option.none
      | some es1 => some (.dict es1)
    | some (.harr xs) =>
      match readItems (fun v => readBack fuel h v) xs with
      | Option.none => Option.none
      | some xs1 => some (.arr xs1)

/-- Lines 103–104 of `generic2.py` for one call template on the heap:
`data = copy.deepcopy(call_cfg["data"])` followed by
`self._populate_service_data(data, fmt)`; the populate step raises for
the container root `do_send` passes, so the composite raises too. -/
def copyAndPopulate (fuel : Nat) (h : Heap) (root : HVal) (n : Nat) :
    Option (Heap × HVal × Nat) :=
  match deepcopyH fuel h root n with
  | Option.none => Option.none
  | some (h1, root1, n1) =>
    match populateHTop h1 root1 with
    | Option.none => Option.none
    | some h2 => some (h2, root1, n1)

/-- The heap at the moment `do_send`'s loop iteration ends — normally
or with the `TypeError` escaping: the deep copy has happened and
nothing has been written since, because `_populate_service_data`
raises before its first write. -/
def heapAfterCall (fuel : Nat) (h : Heap) (root : HVal) (n : Nat) : Heap :=
  match deepcopyH fuel h root n with
  | Option.none => h
  | some (h1, _, _) => h1

/-- Concrete template heap for the C8 witness: one dict at address 0. -/
def demoHeap : Heap := [(0, .hdict [("msg", .leaf (.str "hello"))])]

/-- The heap after copying the demo template to address 1: the copy is
verbatim — the aborted populate step never formatted anything. -/
def demoHeapCopied : Heap :=
  [(1, .hdict [("msg", .leaf (.str "hello"))]),
   (0, .hdict [("msg", .leaf (.str "hello"))])]

/-! ## Basic lemmas -/

theorem find?_eq_some_split {α : Type} {p : α → Bool} {l : List α} {a : α} :
    l.find? p = some a ↔
      p a = true ∧ ∃ s t, l = s ++ a :: t ∧ ∀ x ∈ s, p x = false := by
  induction l with
  | nil => simp
  | cons c cs ih =>
    by_cases hc : p c = true
    · simp only [List.find?_cons, hc]
      constructor
      · rintro h
        obtain rfl : c = a := by simpa using h
        exact ⟨hc, [], cs, rfl, by simp⟩
      · rintro ⟨hpa, s, t, hl, hs⟩
        match s, hl with
        | [], hl =>
          obtain ⟨rfl, rfl⟩ : c = a ∧ cs = t := by simpa using hl
          rfl
        | x :: s', hl =>
          have hx : c = x := (by simpa using hl : c = x ∧ _).1
          have : p x = false := hs x (by simp)
          rw [← hx] at this
          exact absurd hc (by simp [this])
    · have hc' : p c = false := by simpa using hc
      simp only [List.find?_cons, hc']
      rw [ih]
      constructor
      · rintro ⟨hpa, s, t, hl, hs⟩
        refine ⟨hpa, c :: s, t, by simp [hl], ?_⟩
        intro x hx
        rcases List.mem_cons.1 hx with rfl | hx
        · exact hc'
        · exact hs x hx
      · rintro ⟨hpa, s, t, hl, hs⟩
        match s, hl with
        | [], hl =>
          obtain rfl : c = a := by simpa using congrArg (·.head?) hl
          exact absurd hpa (by simp [hc'])
        | x :: s', hl =>
          obtain ⟨rfl, hl'⟩ : c = x ∧ cs = s' ++ a :: t := by simpa using hl
          exact ⟨hpa, s', t, hl', fun y hy => hs y (by simp [hy])⟩

theorem insertByLen_perm (vc : ValueCfg) (l : List ValueCfg) :
    (insertByLen vc l).Perm (vc :: l) := by
  induction l with
  | nil => simp [insertByLen]
  | cons c cs ih =>
    by_cases h : c.slots.length ≤ vc.slots.length
    · simp [insertByLen, h]
    · simp only [insertByLen, if_neg h]
      exact (ih.cons c).trans (List.Perm.swap vc c cs)

theorem sortValues_perm (l : List ValueCfg) : (sortValues l).Perm l := by
  induction l with
  | nil => simp [sortValues]
  | cons c cs ih =>
    exact (insertByLen_perm c (sortValues cs)).trans (ih.cons c)

theorem insertByLen_sorted {vc : ValueCfg} {l : List ValueCfg}
    (h : l.Pairwise (fun a b => b.slots.length ≤ a.slots.length)) :
    (insertByLen vc l).Pairwise (fun a b => b.slots.length ≤ a.slots.length) := by
  induction l with
  | nil => simp [insertByLen]
  | cons c cs ih =>
    rcases List.pairwise_cons.1 h with ⟨hc, hcs⟩
    by_cases hle : c.slots.length ≤ vc.slots.length
    · rw [insertByLen, if_pos hle]
      refine List.pairwise_cons.2 ⟨?_, h⟩
      intro x hx
      rcases List.mem_cons.1 hx with rfl | hx
      · exact hle
      · exact (hc x hx).trans hle
    · rw [insertByLen, if_neg hle]
      refine List.pairwise_cons.2 ⟨?_, ih hcs⟩
      intro x hx
      have hx' : x ∈ vc :: cs := (insertByLen_perm vc cs).mem_iff.1 hx
      rcases List.mem_cons.1 hx' with rfl | hx'
      · exact le_of_not_le hle
      · exact hc x hx'

theorem sortValues_sorted (l : List ValueCfg) :
    (sortValues l).Pairwise (fun a b => b.slots.length ≤ a.slots.length) := by
  induction l with
  | nil => simp [sortValues]
  | cons c cs ih => exact insertByLen_sorted ih

theorem filter_insertByLen (vc : ValueCfg) (l : List ValueCfg) (n : Nat) :
    (insertByLen vc l).filter (fun c => c.slots.length == n) =
      if vc.slots.length = n then
        vc :: l.filter (fun c => c.slots.length == n)
      else l.filter (fun c => c.slots.length == n) := by
  induction l with
  | nil => by_cases h : vc.slots.length = n <;> simp [insertByLen, h]
  | cons c cs ih =>
    by_cases hle : c.slots.length ≤ vc.slots.length
    · rw [insertByLen, if_pos hle]
      by_cases h : vc.slots.length = n <;>
        simp [List.filter_cons, h, beq_iff_eq]
    · have hlt : vc.slots.length < c.slots.length := lt_of_not_le hle
      rw [insertByLen, if_neg hle]
      by_cases hcn : c.slots.length = n
      · have h : ¬(vc.slots.length = n) := by omega
        simp [List.filter_cons, hcn, ih, h, beq_iff_eq]
      · by_cases h : vc.slots.length = n <;>
          simp [List.filter_cons, hcn, ih, h, beq_iff_eq]

theorem sortValues_stable (l : List ValueCfg) (n : Nat) :
    (sortValues l).filter (fun c => c.slots.length == n) =
      l.filter (fun c => c.slots.length == n) := by
  induction l with
  | nil => simp [sortValues]
  | cons c cs ih =>
    simp only [sortValues]
    rw [filter_insertByLen]
    by_cases h : c.slots.length = n <;>
      simp [List.filter_cons, h, ih, beq_iff_eq]

theorem look_cons_ne (h : Heap) (m a : Nat) (o : HObj) (hne : a ≠ m) :
    Heap.look ((m, o) :: h) a = Heap.look h a := by
  rw [Heap.look, List.lookup_cons, beq_eq_false_iff_ne.mpr hne]
  rfl

theorem look_cons_self (h : Heap) (m : Nat) (o : HObj) :
    Heap.look ((m, o) :: h) m = some o := by
  rw [Heap.look, List.lookup_cons, beq_self_eq_true]

theorem look_write_ne (h : Heap) (a c : Nat) (o : HObj) (hne : c ≠ a) :
    (h.write a o).look c = h.look c := by
  induction h with
  | nil => rfl
  | cons p h ih =>
    obtain ⟨b, ob⟩ := p
    by_cases hb : b = a
    · subst hb
      rw [Heap.write, if_pos rfl, look_cons_ne _ _ _ _ hne, look_cons_ne _ _ _ _ hne]
    · rw [Heap.write, if_neg hb]
      by_cases hc : c = b
      · subst hc
        rw [look_cons_self, look_cons_self]
      · rw [look_cons_ne _ _ _ _ hc, look_cons_ne _ _ _ _ hc, ih]

theorem look_write_self (h : Heap) (a : Nat) (o o' : HObj)
    (hb : h.look a = some o) : (h.write a o').look a = some o' := by
  induction h with
  | nil => exact absurd hb (by rw [Heap.look]; simp)
  | cons p h ih =>
    obtain ⟨b, ob⟩ := p
    by_cases hba : b = a
    · subst hba
      rw [Heap.write, if_pos rfl, look_cons_self]
    · rw [look_cons_ne _ _ _ _ (fun hc => hba hc.symm)] at hb
      rw [Heap.write, if_neg hba, look_cons_ne _ _ _ _ (fun hc => hba hc.symm)]
      exact ih hb

theorem mem_of_look (h : Heap) (a : Nat) (o : HObj)
    (hl : h.look a = some o) : (a, o) ∈ h := by
  induction h with
  | nil => exact absurd hl (by rw [Heap.look]; simp)
  | cons p h ih =>
    obtain ⟨b, ob⟩ := p
    by_cases hab : a = b
    · subst hab
      rw [look_cons_self] at hl
      obtain rfl : ob = o := by simpa using hl
      exact List.mem_cons_self _ _
    · rw [look_cons_ne _ _ _ _ hab] at hl
      exact List.mem_cons_of_mem _ (ih hl)

theorem mem_childRefs_hdict (es : List (String × HVal)) (b : Nat) :
    b ∈ childRefs (.hdict es) ↔ ∃ kv ∈ es, kv.2 = .ref b := by
  rw [childRefs, List.mem_filterMap]
  constructor
  · rintro ⟨kv, hkv, hm⟩
    refine ⟨kv, hkv, ?_⟩
    cases h2 : kv.2 with
    | ref a =>
      rw [h2] at hm
      obtain rfl : a = b := by simpa using hm
      rfl
    | leaf v => rw [h2] at hm; simp at hm
  · rintro ⟨kv, hkv, hm⟩
    exact ⟨kv, hkv, by rw [hm]⟩

theorem mem_childRefs_harr (xs : List HVal) (b : Nat) :
    b ∈ childRefs (.harr xs) ↔ .ref b ∈ xs := by
  rw [childRefs, List.mem_filterMap]
  constructor
  · rintro ⟨w, hw, hm⟩
    cases w with
    | ref a =>
      obtain rfl : a = b := by simpa using hm
      exact hw
    | leaf v => simp at hm
  · intro hw
    exact ⟨.ref b, hw, rfl⟩

/-- The frame/freshness facts delivered by one deep-copy step: the
counter grows, old addresses keep their objects, the produced value
points into the fresh region, and the fresh region is closed under
child references. -/
def CopyFacts (h : Heap) (n : Nat) (h1 : Heap) (v1 : HVal) (n1 : Nat) : Prop :=
  n ≤ n1 ∧
  (∀ a, a < n → h1.look a = h.look a) ∧
  (∀ b, v1 = .ref b → n ≤ b ∧ b < n1) ∧
  (∀ a, n ≤ a → a < n1 →
    ∃ o, h1.look a = some o ∧ ∀ b ∈ childRefs o, n ≤ b ∧ b < n1)

/-- The analogous facts for a list of copied entries. -/
def CopyListFacts (refsOf : List Nat) (h : Heap) (n : Nat) (h1 : Heap)
    (n1 : Nat) : Prop :=
  n ≤ n1 ∧
  (∀ a, a < n → h1.look a = h.look a) ∧
  (∀ b ∈ refsOf, n ≤ b ∧ b < n1) ∧
  (∀ a, n ≤ a → a < n1 →
    ∃ o, h1.look a = some o ∧ ∀ b ∈ childRefs o, n ≤ b ∧ b < n1)

theorem copyEntries_frame (f : Heap → HVal → Nat → Option (Heap × HVal × Nat))
    (hf : ∀ h v n h1 v1 n1, f h v n = some (h1, v1, n1) → CopyFacts h n h1 v1 n1) :
    ∀ (es : List (String × HVal)) (h : Heap) (n : Nat) (h1 : Heap)
      (es1 : List (String × HVal)) (n1 : Nat),
      copyEntries f h es n = some (h1, es1, n1) →
      CopyListFacts (childRefs (.hdict es1)) h n h1 n1 := by
  intro es
  induction es with
  | nil =>
    intro h n h1 es1 n1 hc
    obtain ⟨rfl, rfl, rfl⟩ : h = h1 ∧ ([] : List (String × HVal)) = es1 ∧ n = n1 := by
      simpa [copyEntries] using hc
    refine ⟨le_refl _, fun a _ => rfl, ?_, ?_⟩
    · intro b hb
      rw [mem_childRefs_hdict] at hb
      obtain ⟨kv, hkv, _⟩ := hb
      simp at hkv
    · intro a ha1 ha2
      exact absurd ha2 (by omega)
  | cons kv es ih =>
    obtain ⟨k, v⟩ := kv
    intro h n h1 es1 n1 hc
    cases hA : f h v n with
    | none => simp [copyEntries, hA] at hc
    | some tA =>
      obtain ⟨hA1, w, nA⟩ := tA
      cases hB : copyEntries f hA1 es nA with
      | none => simp [copyEntries, hA, hB] at hc
      | some tB =>
        obtain ⟨hB1, ws, nB⟩ := tB
        obtain ⟨rfl, rfl, rfl⟩ : hB1 = h1 ∧ (k, w) :: ws = es1 ∧ nB = n1 := by
          simpa [copyEntries, hA, hB] using hc
        obtain ⟨hleA, hfrA, hrefA, hregA⟩ := hf h v n hA1 w nA hA
        obtain ⟨hleB, hfrB, hrefB, hregB⟩ := ih hA1 nA hB1 ws nB hB
        refine ⟨le_trans hleA hleB, ?_, ?_, ?_⟩
        · intro a ha
          rw [hfrB a (by omega), hfrA a ha]
        · intro b hb
          rw [mem_childRefs_hdict] at hb
          obtain ⟨kv', hkv', hm⟩ := hb
          rcases List.mem_cons.1 hkv' with rfl | hmem

          · have := hrefA b hm
            omega
          · have := hrefB b ((mem_childRefs_hdict ws b).2 ⟨kv', hmem, hm⟩)
            omega
        · intro a ha1 ha2
          by_cases hlt : a < nA
          · obtain ⟨o, ho, hob⟩ := hregA a ha1 hlt
            refine ⟨o, by rw [hfrB a hlt]; exact ho, ?_⟩
            intro b hb
            have := hob b hb
            omega
          · obtain ⟨o, ho, hob⟩ := hregB a (by omega) ha2
            refine ⟨o, ho, ?_⟩
            intro b hb
            have := hob b hb
            omega

theorem copyItems_frame (f : Heap → HVal → Nat → Option (Heap × HVal × Nat))
    (hf : ∀ h v n h1 v1 n1, f h v n = some (h1, v1, n1) → CopyFacts h n h1 v1 n1) :
    ∀ (xs : List HVal) (h : Heap) (n : Nat) (h1 : Heap) (xs1 : List HVal)
      (n1 : Nat),
      copyItems f h xs n = some (h1, xs1, n1) →
      CopyListFacts (childRefs (.harr xs1)) h n h1 n1 := by
  intro xs
  induction xs with
  | nil =>
    intro h n h1 xs1 n1 hc
    obtain ⟨rfl, rfl, rfl⟩ : h = h1 ∧ ([] : List HVal) = xs1 ∧ n = n1 := by
      simpa [copyItems] using hc
    refine ⟨le_refl _, fun a _ => rfl, ?_, ?_⟩
    · intro b hb
      rw [mem_childRefs_harr] at hb
      simp at hb
    · intro a ha1 ha2
      exact absurd ha2 (by omega)
  | cons v xs ih =>
    intro h n h1 xs1 n1 hc
    cases hA : f h v n with
    | none => simp [copyItems, hA] at hc
    | some tA =>
      obtain ⟨hA1, w, nA⟩ := tA
      cases hB : copyItems f hA1 xs nA with
      | none => simp [copyItems, hA, hB] at hc
      | some tB =>
        obtain ⟨hB1, ws, nB⟩ := tB
        obtain ⟨rfl, rfl, rfl⟩ : hB1 = h1 ∧ w :: ws = xs1 ∧ nB = n1 := by
          simpa [copyItems, hA, hB] using hc
        obtain ⟨hleA, hfrA, hrefA, hregA⟩ := hf h v n hA1 w nA hA
        obtain ⟨hleB, hfrB, hrefB, hregB⟩ := ih hA1 nA hB1 ws nB hB
        refine ⟨le_trans hleA hleB, ?_, ?_, ?_⟩
        · intro a ha
          rw [hfrB a (by omega), hfrA a ha]
        · intro b hb
          rw [mem_childRefs_harr] at hb
          rcases List.mem_cons.1 hb with heq | hmem
          · have := hrefA b heq.symm
            omega
          · have := hrefB b ((mem_childRefs_harr ws b).2 hmem)
            omega
        · intro a ha1 ha2
          by_cases hlt : a < nA
          · obtain ⟨o, ho, hob⟩ := hregA a ha1 hlt
            refine ⟨o, by rw [hfrB a hlt]; exact ho, ?_⟩
            intro b hb
            have := hob b hb
            omega
          · obtain ⟨o, ho, hob⟩ := hregB a (by omega) ha2
            refine ⟨o, ho, ?_⟩
            intro b hb
            have := hob b hb
            omega

theorem deepcopyH_frame :
    ∀ (fuel : Nat) (h : Heap) (v : HVal) (n : Nat) (h1 : Heap) (v1 : HVal)
      (n1 : Nat),
      deepcopyH fuel h v n = some (h1, v1, n1) → CopyFacts h n h1 v1 n1 := by
  intro fuel
  induction fuel with
  | zero =>
    intro h v n h1 v1 n1 hc
    cases v with
    | ref a => exact absurd hc (by rw [deepcopyH]; simp)
    | leaf w =>
      obtain ⟨rfl, rfl, rfl⟩ : h = h1 ∧ HVal.leaf w = v1 ∧ n = n1 := by
        simpa [deepcopyH] using hc
      exact ⟨le_refl _, fun a _ => rfl, fun b hb => by simp at hb,
        fun a ha1 ha2 => absurd ha2 (Nat.not_lt.mpr ha1)⟩
  | succ fuel ih =>
    intro h v n h1 v1 n1 hc
    cases v with
    | leaf w =>
      obtain ⟨rfl, rfl, rfl⟩ : h = h1 ∧ HVal.leaf w = v1 ∧ n = n1 := by
        simpa [deepcopyH] using hc
      exact ⟨le_refl _, fun a _ => rfl, fun b hb => by simp at hb,
        fun a ha1 ha2 => absurd ha2 (Nat.not_lt.mpr ha1)⟩
    | ref a =>
      cases hla : h.look a with
      | none => simp [deepcopyH, hla] at hc
      | some o =>
        cases o with
        | hdict es =>
          cases hce : copyEntries (fun h v n => deepcopyH fuel h v n) h es n with
          | none => simp [deepcopyH, hla, hce] at hc
          | some t =>
            obtain ⟨hA, es1, nA⟩ := t
            obtain ⟨rfl, rfl, rfl⟩ :
                (nA, HObj.hdict es1) :: hA = h1 ∧ HVal.ref nA = v1 ∧ nA + 1 = n1 := by
              simpa [deepcopyH, hla, hce] using hc
            obtain ⟨hle, hfr, hrefs, hreg⟩ :=
              copyEntries_frame _ (fun h v n h1 v1 n1 hx => ih h v n h1 v1 n1 hx)
                es h n hA es1 nA hce
            refine ⟨by omega, ?_, ?_, ?_⟩
            · intro c hcn
              rw [look_cons_ne _ _ _ _ (by omega), hfr c hcn]
            · intro b hb
              obtain rfl : nA = b := by simpa using hb
              omega
            · intro c hc1 hc2
              by_cases hca : c = nA
              · subst hca
                refine ⟨.hdict es1, look_cons_self _ _ _, ?_⟩
                intro b hb
                have := hrefs b hb
                omega
              · obtain ⟨o, ho, hob⟩ := hreg c hc1 (by omega)
                refine ⟨o, by rw [look_cons_ne _ _ _ _ hca]; exact ho, ?_⟩
                intro b hb
                have := hob b hb
                omega
        | harr xs =>
          cases hce : copyItems (fun h v n => deepcopyH fuel h v n) h xs n with
          | none => simp [deepcopyH, hla, hce] at hc
          | some t =>
            obtain ⟨hA, xs1, nA⟩ := t
            obtain ⟨rfl, rfl, rfl⟩ :
                (nA, HObj.harr xs1) :: hA = h1 ∧ HVal.ref nA = v1 ∧ nA + 1 = n1 := by
              simpa [deepcopyH, hla, hce] using hc
            obtain ⟨hle, hfr, hrefs, hreg⟩ :=
              copyItems_frame _ (fun h v n h1 v1 n1 hx => ih h v n h1 v1 n1 hx)
                xs h n hA xs1 nA hce
            refine ⟨by omega, ?_, ?_, ?_⟩
            · intro c hcn
              rw [look_cons_ne _ _ _ _ (by omega), hfr c hcn]
            · intro b hb
              obtain rfl : nA = b := by simpa using hb
              omega
            · intro c hc1 hc2
              by_cases hca : c = nA
              · subst hca
                refine ⟨.harr xs1, look_cons_self _ _ _, ?_⟩
                intro b hb
                have := hrefs b hb
                omega
              · obtain ⟨o, ho, hob⟩ := hreg c hc1 (by omega)
                refine ⟨o, by rw [look_cons_ne _ _ _ _ hca]; exact ho, ?_⟩
                intro b hb
                have := hob b hb
                omega

theorem readEntries_congr (f g : HVal → Option PyObj) :
    ∀ es : List (String × HVal), (∀ k v, (k, v) ∈ es → f v = g v) →
      readEntries f es = readEntries g es := by
  intro es
  induction es with
  | nil => intro _; rfl
  | cons kv es ih =>
    obtain ⟨k, v⟩ := kv
    intro hfg
    simp only [readEntries]
    rw [hfg k v (List.mem_cons_self _ _),
      ih (fun k2 v2 hm => hfg k2 v2 (List.mem_cons_of_mem _ hm))]

theorem readItems_congr (f g : HVal → Option PyObj) :
    ∀ xs : List HVal, (∀ v ∈ xs, f v = g v) → readItems f xs = readItems g xs := by
  intro xs
  induction xs with
  | nil => intro _; rfl
  | cons v xs ih =>
    intro hfg
    simp only [readItems]
    rw [hfg v (List.mem_cons_self _ _),
      ih (fun v2 hm => hfg v2 (List.mem_cons_of_mem _ hm))]

theorem readBack_congr (h1 h : Heap) (n : Nat)
    (hagree : ∀ a, a < n → h1.look a = h.look a)
    (hclosed : ∀ a, a < n → ∀ o, h.look a = some o →
      ∀ b ∈ childRefs o, b < n) :
    ∀ (fuel : Nat) (v : HVal), (∀ b, v = .ref b → b < n) →
      readBack fuel h1 v = readBack fuel h v := by
  intro fuel
  induction fuel with
  | zero => intro v _; cases v <;> rfl
  | succ fuel ih =>
    intro v hv
    cases v with
    | leaf w => rfl
    | ref a =>
      have ha : a < n := hv a rfl
      have hla : h1.look a = h.look a := hagree a ha
      cases hl : h.look a with
      | none => simp only [readBack, hla, hl]
      | some o =>
        have hrefs := hclosed a ha o hl
        cases o with
        | hdict es =>
          have hes : readEntries (fun w => readBack fuel h1 w) es =
              readEntries (fun w => readBack fuel h w) es := by
            apply readEntries_congr
            intro k w hm
            apply ih
            intro b hb
            exact hrefs b ((mem_childRefs_hdict es b).2 ⟨(k, w), hm, hb⟩)
          simp only [readBack, hla, hl, hes]
        | harr xs =>
          have hxs : readItems (fun w => readBack fuel h1 w) xs =
              readItems (fun w => readBack fuel h w) xs := by
            apply readItems_congr
            intro w hm
            apply ih
            intro b hb
            exact hrefs b ((mem_childRefs_harr xs b).2 (hb ▸ hm))
          simp only [readBack, hla, hl, hxs]

theorem fmtKey_beq_slot_slot (i j : Nat) :
    (FmtKey.slot i == FmtKey.slot j) = decide (i = j) := by
  show decide (FmtKey.slot i = FmtKey.slot j) = decide (i = j)
  by_cases h : i = j <;> simp [h]

theorem lookup_slot_range' (g : Nat → PyScalar) :
    ∀ (n s i : Nat),
      ((List.range' s n).map (fun j => (FmtKey.slot j, g j))).lookup (FmtKey.slot i) =
        if s ≤ i ∧ i < s + n then some (g i) else Option.none := by
  intro n
  induction n with
  | zero =>
    intro s i
    simp only [List.range', List.map_nil, List.lookup_nil]
    rw [if_neg (by omega)]
  | succ n ih =>
    intro s i
    rw [List.range'_succ, List.map_cons, List.lookup_cons]
    by_cases h : i = s
    · subst h
      have hb : (FmtKey.slot i == FmtKey.slot i) = true := by
        rw [fmtKey_beq_slot_slot]; simp
      rw [hb]
      show some (g i) = if i ≤ i ∧ i < i + (n + 1) then some (g i) else Option.none
      rw [if_pos (by omega)]
    · have hb : (FmtKey.slot i == FmtKey.slot s) = false := by
        rw [fmtKey_beq_slot_slot]; simp [h]
      rw [hb]
      show ((List.range' (s + 1) n).map
          (fun j => (FmtKey.slot j, g j))).lookup (FmtKey.slot i) = _
      rw [ih (s + 1) i]
      by_cases h2 : s + 1 ≤ i ∧ i < s + 1 + n
      · rw [if_pos h2, if_pos (by omega)]
      · rw [if_neg h2, if_neg (by omega)]

theorem buildFmt_lookup_entity (slots : List SlotCfg) (eid : String)
    (value : List PyScalar) :
    (buildFmt slots eid value).lookup FmtKey.entity_id = some (.str eid) := rfl

theorem buildFmt_lookup_slot (slots : List SlotCfg) (eid : String)
    (value : List PyScalar) (i : Nat) :
    (buildFmt slots eid value).lookup (FmtKey.slot i) =
      if i < slots.length then some (value.getD i PyScalar.none) else Option.none := by
  unfold buildFmt
  rw [List.lookup_cons]
  have hb : (FmtKey.slot i == FmtKey.entity_id) = false := rfl
  rw [hb]
  simp only [cond_false]
  rw [List.range_eq_range', lookup_slot_range' (fun j => value.getD j PyScalar.none)]
  by_cases h : i < slots.length
  · rw [if_pos (by omega), if_pos h]
  · rw [if_neg (by omega), if_neg h]

theorem tryLengths_some (values : List ValueCfg) (tpl : List PyScalar) :
    ∀ k : Nat,
      (∃ l, l ≤ k ∧ (findValueCfg values (tpl.take l)).isSome = true) →
      tryLengths values tpl k =
        some (tpl.take (Nat.findGreatest
          (fun l => (findValueCfg values (tpl.take l)).isSome = true) k)) := by
  intro k
  induction k with
  | zero =>
    rintro ⟨l, hl, hP⟩
    interval_cases l
    rw [Nat.findGreatest_zero, tryLengths]
    rw [List.take_zero] at hP
    rw [hP, if_pos rfl]
    rfl
  | succ k ih =>
    rintro ⟨l, hl, hP⟩
    by_cases hk : (findValueCfg values (tpl.take (k + 1))).isSome = true
    · rw [tryLengths, if_pos hk, Nat.findGreatest_succ, if_pos hk]
    · have hlk : l ≤ k := by
        rcases Nat.lt_succ_iff_lt_or_eq.1 (Nat.lt_succ_of_le hl) with h | h
        · omega
        · exact absurd (h ▸ hP) hk
      rw [tryLengths, if_neg (by simpa using hk), Nat.findGreatest_succ, if_neg hk]
      exact ih ⟨l, hlk, hP⟩

theorem tryLengths_none (values : List ValueCfg) (tpl : List PyScalar) :
    ∀ k : Nat,
      (∀ l, l ≤ k → (findValueCfg values (tpl.take l)).isSome = false) →
      tryLengths values tpl k = Option.none := by
  intro k
  induction k with
  | zero =>
    intro h
    have h0 := h 0 (le_refl 0)
    rw [List.take_zero] at h0
    rw [tryLengths, h0]
    rfl
  | succ k ih =>
    intro h
    have hk := h (k + 1) (le_refl _)
    rw [tryLengths, hk]
    simp only [Bool.false_eq_true, if_false]
    exact ih (fun l hl => h l (by omega))

theorem lookup_append_left_none {β : Type} (l1 l2 : List (String × β)) (k : String)
    (h : l1.lookup k = Option.none) : (l1 ++ l2).lookup k = l2.lookup k := by
  induction l1 with
  | nil => rfl
  | cons kv l1 ih =>
    obtain ⟨k', v⟩ := kv
    by_cases hb : (k == k') = true
    · rw [List.lookup_cons, hb] at h
      exact absurd h (by simp)
    · have hb' : (k == k') = false := by simpa using hb
      rw [List.lookup_cons, hb'] at h
      rw [List.cons_append, List.lookup_cons, hb']
      exact ih h

theorem setdefault_of_present (d : List (String × PyObj)) (k : String) (v : PyObj)
    (h : (d.lookup k).isSome = true) : setdefault d k v = d := by
  rw [setdefault, if_pos h]

theorem setdefault_of_absent (d : List (String × PyObj)) (k : String) (v : PyObj)
    (h : d.lookup k = Option.none) : (setdefault d k v).lookup k = some v := by
  rw [setdefault, if_neg (by simp [h]), lookup_append_left_none _ _ _ h,
    List.lookup_cons]
  simp

/-! ## Claim theorems -/

/-- C4: `validate_value` maps a scalar of an allowed type to the 1-tuple
containing it, a list to the tuple with the same elements (hence equal
length and elementwise-equal entries), and rejects (raises
`ValueError`, modelled `Option.none`) any input containing an element
whose type fails the `ALLOWED_VALUE_TYPES` check, producing no tuple. -/
theorem validate_value_round_trip :
    (∀ v : PyScalar, isAllowedType v = true →
      validate_value (.scalar v) = some [v]) ∧
    (∀ xs : List PyScalar, xs.all isAllowedType = true →
      validate_value (.list xs) = some xs) ∧
    (∀ v : PyScalar, isAllowedType v = false →
      validate_value (.scalar v) = Option.none) ∧
    (∀ xs : List PyScalar, (∃ x ∈ xs, isAllowedType x = false) →
      validate_value (.list xs) = Option.none) ∧
    (∀ xs : List PyScalar, (∃ x ∈ xs, isAllowedType x = false) →
      validate_value (.tuple xs) = Option.none) := by
  refine ⟨?_, ?_, ?_, ?_, ?_⟩
  · intro v h; simp [validate_value, h]
  · intro xs h; simp [validate_value, h]
  · intro v h; simp [validate_value, h]
  · rintro xs ⟨x, hx, hbad⟩
    have : ¬(xs.all isAllowedType = true) := by
      simp only [List.all_eq_true]
      intro hall
      exact absurd (hall x hx) (by simp [hbad])
    simp [validate_value, this]
  · rintro xs ⟨x, hx, hbad⟩
    have : ¬(xs.all isAllowedType = true) := by
      simp only [List.all_eq_true]
      intro hall
      exact absurd (hall x hx) (by simp [hbad])
    simp [validate_value, this]

/-- Witness for C4 at concrete inputs. -/
theorem validate_value_round_trip_witness :
    (isAllowedType (.int 3) = true ∧
      validate_value (.scalar (.int 3)) = some [.int 3]) ∧
    ([PyScalar.str "x", PyScalar.none].all isAllowedType = true ∧
      validate_value (.list [.str "x", .none]) = some [.str "x", .none]) ∧
    (isAllowedType (.other "dict") = false ∧
      validate_value (.scalar (.other "dict")) = Option.none) ∧
    ((∃ x ∈ [PyScalar.int 1, PyScalar.other "set"], isAllowedType x = false) ∧
      validate_value (.list [.int 1, .other "set"]) = Option.none) :=
  ⟨⟨rfl, validate_value_round_trip.1 (.int 3) rfl⟩,
   ⟨rfl, validate_value_round_trip.2.1 [.str "x", .none] rfl⟩,
   ⟨rfl, validate_value_round_trip.2.2.1 (.other "dict") rfl⟩,
   ⟨⟨.other "set", by simp, rfl⟩,
    validate_value_round_trip.2.2.2.1 [.int 1, .other "set"]
      ⟨.other "set", by simp, rfl⟩⟩⟩

/-- C10: booleans pass the `isinstance` check against
`ALLOWED_VALUE_TYPES` (Python `bool` is a subclass of `int`), so
`validate_value` accepts them and returns the 1-tuple. -/
theorem validate_value_accepts_bool (b : Bool) :
    isAllowedType (.bool b) = true ∧
    validate_value (.scalar (.bool b)) = some [.bool b] :=
  ⟨rfl, rfl⟩

/-- Witness for C10 at the concrete boolean `true`. -/
theorem validate_value_accepts_bool_witness :
    isAllowedType (.bool true) = true ∧
    validate_value (.scalar (.bool true)) = some [.bool true] :=
  validate_value_accepts_bool true

/-- C5: `filter_set_value` is a pass-through gate: it returns the value
unchanged when some configured pattern matches, and returns `None`
(after logging) when none does; the `ValueError` of `_find_value_cfg`
is caught and never escapes. -/
theorem filter_set_value_gate (values : List ValueCfg) (value : List PyScalar) :
    ((∃ vc ∈ values, patternMatches vc.slots value = true) →
      filter_set_value values value = some value) ∧
    ((∀ vc ∈ values, patternMatches vc.slots value = false) →
      filter_set_value values value = Option.none) := by
  constructor
  · rintro ⟨vc, hmem, hm⟩
    rw [filter_set_value]
    cases hf : findValueCfg values value with
    | none =>
      rw [findValueCfg, List.find?_eq_none] at hf
      exact absurd hm (by simp [hf vc hmem])
    | some vc' => rfl
  · intro h
    rw [filter_set_value]
    have hf : findValueCfg values value = Option.none := by
      rw [findValueCfg, List.find?_eq_none]
      intro x hx
      simp [h x hx]
    rw [hf]

/-- Witness for C5 on the switch rule table. -/
theorem filter_set_value_gate_witness :
    (∃ vc ∈ switchValues, patternMatches vc.slots [PyScalar.str "on"] = true) ∧
    filter_set_value switchValues [PyScalar.str "on"] = some [PyScalar.str "on"] ∧
    (∀ vc ∈ switchValues, patternMatches vc.slots [PyScalar.str "zzz"] = false) ∧
    filter_set_value switchValues [PyScalar.str "zzz"] = Option.none :=
  ⟨by decide,
   (filter_set_value_gate switchValues [PyScalar.str "on"]).1 (by decide),
   by decide,
   (filter_set_value_gate switchValues [PyScalar.str "zzz"]).2 (by decide)⟩

/-- C3: observed-state resolution.  The observed tuple has one element
per configured slot (missing attributes become `None`);
`notify_state_changed` returns `O.take L` for the first length `L` in
the descending sequence `N, N-1, …, 0` whose prefix matches a
configured pattern — i.e. the greatest such `L ≤ N` — and returns the
warned, unrecognized outcome `None` when no length qualifies
(including `L = 0` when no empty pattern is configured). -/
theorem notify_state_changed_resolution (slots : List SlotCfg)
    (values : List ValueCfg) (attrs : List (String × PyScalar)) :
    (buildObserved slots attrs).length = slots.length ∧
    ((∃ l, l ≤ (buildObserved slots attrs).length ∧
        (findValueCfg values ((buildObserved slots attrs).take l)).isSome = true) →
      notify_state_changed slots values attrs =
        some ((buildObserved slots attrs).take
          (Nat.findGreatest (fun l =>
              (findValueCfg values ((buildObserved slots attrs).take l)).isSome = true)
            (buildObserved slots attrs).length))) ∧
    ((∀ l, l ≤ (buildObserved slots attrs).length →
        (findValueCfg values ((buildObserved slots attrs).take l)).isSome = false) →
      notify_state_changed slots values attrs = Option.none) := by
  refine ⟨by simp [buildObserved], ?_, ?_⟩
  · intro h
    exact tryLengths_some values (buildObserved slots attrs) _ h
  · intro h
    exact tryLengths_none values (buildObserved slots attrs) _ h

/-- Witness for C3: the switch table, an observed `("on", )` tuple and
an unrecognized `("weird", )` tuple. -/
theorem notify_state_changed_resolution_witness :
    (buildObserved switchSlots [("state", PyScalar.str "on")]).length = 1 ∧
    notify_state_changed switchSlots switchValues [("state", PyScalar.str "on")] =
      some ((buildObserved switchSlots [("state", PyScalar.str "on")]).take
        (Nat.findGreatest (fun l =>
            (findValueCfg switchValues
              ((buildObserved switchSlots [("state", PyScalar.str "on")]).take l)).isSome
              = true)
          (buildObserved switchSlots [("state", PyScalar.str "on")]).length)) ∧
    notify_state_changed switchSlots switchValues [("state", PyScalar.str "weird")] =
      Option.none :=
  ⟨rfl,
   (notify_state_changed_resolution switchSlots switchValues
      [("state", PyScalar.str "on")]).2.1 ⟨1, by decide, by decide⟩,
   (notify_state_changed_resolution switchSlots switchValues
      [("state", PyScalar.str "weird")]).2.2 (by decide)⟩

/-- C7 (code bug): the claim's `include_entity_id` handling — the
`data.setdefault("entity_id", self.entity_id)` of lines 105–106 — is
unreachable in the source: every loop iteration raises `TypeError`
inside `_populate_service_data` (`memo = set((data,))` with an
unhashable dict) before reaching it.  No final parameter mapping, with
or without an injected `entity_id`, is ever produced or passed to the
invoker, whatever the flag's value. -/
theorem runCall_entity_id_injection (fmt : Fmt) (eid : String) (call : CallCfg) :
    runCall fmt eid call = Option.none := rfl

/-- Witness for C7 at a concrete call template with the flag set. -/
theorem runCall_entity_id_injection_witness :
    runCall [] "eid" { service := "s", data := [("entity_id", .leaf (.str "cfg"))],
                       include_entity_id := true } = Option.none :=
  runCall_entity_id_injection [] "eid"
    { service := "s", data := [("entity_id", .leaf (.str "cfg"))],
      include_entity_id := true }

/-- C9 (code bug): with the switch actor's built-in defaults, the value
`("off",)` does match the `homeassistant/turn_off` rule, but the
claimed invocation never happens: `do_send` raises `TypeError` inside
`_populate_service_data({}, fmt)` on the first loop iteration, so zero
services are invoked and the loop aborts (`some ([], false)`).  The
`("unknown",)` half of the claim is accurate: `filter_set_value`
reports the unmatched value and `do_send` raises `ValueError` without
invoking anything. -/
theorem switch_defaults_behavior (eid : String) :
    do_send switchSlots switchValues eid [.str "off"] = some ([], false) ∧
    filter_set_value switchValues [.str "unknown"] = Option.none ∧
    do_send switchSlots switchValues eid [.str "unknown"] = Option.none :=
  ⟨rfl, rfl, rfl⟩

/-- Witness for C9 at a concrete entity id. -/
theorem switch_defaults_behavior_witness :
    do_send switchSlots switchValues "switch.sw1" [.str "off"] =
      some ([], false) ∧
    filter_set_value switchValues [.str "unknown"] = Option.none ∧
    do_send switchSlots switchValues "switch.sw1" [.str "unknown"] =
      Option.none :=
  switch_defaults_behavior "switch.sw1"

theorem filter_len_match (l : List ValueCfg) (value : List PyScalar) (L : Nat) :
    l.filter (fun c => patternMatches c.slots value && (c.slots.length == L)) =
      (l.filter (fun c => c.slots.length == L)).filter
        (fun c => patternMatches c.slots value) := by
  rw [List.filter_filter]

/-- C2 (code bug): `do_send` does build the substitution dict exactly
as the claim describes — `entity_id` bound to the entity's identifier
and `slot{i}`, for every configured slot index `i`, bound to
`value[i]` when `i` is in range and to `None` otherwise (lines
97–99).  But the claimed substitution pass never happens: for every
template, `_populate_service_data` raises `TypeError` at its first
statement (`memo = set((data,))`, dict unhashable) before formatting a
single string leaf, so no substituted parameter structure is ever
produced. -/
theorem execute_substitution_map (slots : List SlotCfg) (eid : String)
    (value : List PyScalar) :
    ((buildFmt slots eid value).lookup FmtKey.entity_id = some (.str eid)) ∧
    (∀ i, i < slots.length →
      (buildFmt slots eid value).lookup (FmtKey.slot i) =
        some (value.getD i PyScalar.none)) ∧
    (∀ i, i < slots.length → value.length ≤ i →
      (buildFmt slots eid value).lookup (FmtKey.slot i) = some PyScalar.none) ∧
    (∀ (fmt : Fmt) (data : List (String × PyObj)),
      populate_service_data fmt data = Option.none) := by
  refine ⟨buildFmt_lookup_entity slots eid value, ?_, ?_, ?_⟩
  · intro i hi
    rw [buildFmt_lookup_slot, if_pos hi]
  · intro i hi hlen
    rw [buildFmt_lookup_slot, if_pos hi, List.getD_eq_default _ _ hlen]
  · intro fmt data
    rfl

/-- Witness for C2: two configured slots, a one-element value (second
slot out of range), and a concrete template on which the substitution
step raises. -/
theorem execute_substitution_map_witness :
    ((buildFmt [{ attr := "a" }, { attr := "b" }] "E" [.int 7]).lookup
        FmtKey.entity_id = some (.str "E")) ∧
    ((0 : Nat) < 2 ∧
      (buildFmt [{ attr := "a" }, { attr := "b" }] "E" [.int 7]).lookup
        (FmtKey.slot 0) = some ([PyScalar.int 7].getD 0 PyScalar.none)) ∧
    ((1 : Nat) < 2 ∧ [PyScalar.int 7].length ≤ 1 ∧
      (buildFmt [{ attr := "a" }, { attr := "b" }] "E" [.int 7]).lookup
        (FmtKey.slot 1) = some PyScalar.none) ∧
    populate_service_data []
      [("k", .arr [.leaf (.str "t"), .leaf (.int 3)])] = Option.none :=
  ⟨(execute_substitution_map [{ attr := "a" }, { attr := "b" }] "E" [.int 7]).1,
   ⟨by decide, (execute_substitution_map
      [{ attr := "a" }, { attr := "b" }] "E" [.int 7]).2.1 0 (by decide)⟩,
   ⟨by decide, by decide, (execute_substitution_map
      [{ attr := "a" }, { attr := "b" }] "E" [.int 7]).2.2.1 1
      (by decide) (by decide)⟩,
   (execute_substitution_map [{ attr := "a" }, { attr := "b" }] "E"
      [.int 7]).2.2.2 [] [("k", .arr [.leaf (.str "t"), .leaf (.int 3)])]⟩

/-- C6: the rule table after configuration load is the configured entry
list stably sorted by descending pattern length (pairwise sorted, each
length class kept verbatim in configured order, and a permutation of
the input); lookups scan exactly this list order: a lookup result is
precisely characterized by a split of the table into a non-matching
prefix, the returned rule, and the rest.  The sort runs once inside the
configuration schema; `_find_value_cfg` is a pure read of the resulting
list. -/
theorem rule_table_invariant (raw : List ValueCfg) (value : List PyScalar) :
    (sortValues raw).Pairwise (fun a b => b.slots.length ≤ a.slots.length) ∧
    (∀ n, (sortValues raw).filter (fun c => c.slots.length == n) =
      raw.filter (fun c => c.slots.length == n)) ∧
    (sortValues raw).Perm raw ∧
    (∀ vc, findValueCfg (sortValues raw) value = some vc ↔
      (patternMatches vc.slots value = true ∧
       ∃ s t, sortValues raw = s ++ vc :: t ∧
         ∀ x ∈ s, patternMatches x.slots value = false)) :=
  ⟨sortValues_sorted raw, sortValues_stable raw, sortValues_perm raw,
   fun vc => by rw [findValueCfg]; exact find?_eq_some_split⟩

/-- Witness for C6 on a concrete three-rule table. -/
theorem rule_table_invariant_witness :
    (sortValues demoValues).Pairwise (fun a b => b.slots.length ≤ a.slots.length) ∧
    (sortValues demoValues).filter (fun c => c.slots.length == 2) =
      demoValues.filter (fun c => c.slots.length == 2) ∧
    (sortValues demoValues).Perm demoValues ∧
    (patternMatches demoV2.slots [PyScalar.int 1, PyScalar.int 2] = true ∧
      ∃ s t, sortValues demoValues = s ++ demoV2 :: t ∧
        ∀ x ∈ s, patternMatches x.slots [PyScalar.int 1, PyScalar.int 2] = false) :=
  ⟨(rule_table_invariant demoValues [PyScalar.int 1, PyScalar.int 2]).1,
   (rule_table_invariant demoValues [PyScalar.int 1, PyScalar.int 2]).2.1 2,
   (rule_table_invariant demoValues [PyScalar.int 1, PyScalar.int 2]).2.2.1,
   ((rule_table_invariant demoValues [PyScalar.int 1, PyScalar.int 2]).2.2.2
      demoV2).mp rfl⟩

/-- C1 (code bug): whenever some configured pattern matches the value
tuple, `do_send` does select the first matching rule of the sorted
table — a matching rule of maximal pattern length, the
earliest-configured of that length — but the claimed invocations never
happen: whenever that rule's `calls` list is non-empty,
`_populate_service_data` raises `TypeError` on the first loop
iteration (`memo = set((data,))` with an unhashable dict), so zero
services are invoked and the exception escapes. -/
theorem do_send_first_matching_rule (slots : List SlotCfg)
    (raw : List ValueCfg) (eid : String) (value : List PyScalar)
    (h : ∃ vc ∈ raw, patternMatches vc.slots value = true) :
    ∃ vc, findValueCfg (sortValues raw) value = some vc ∧
      patternMatches vc.slots value = true ∧
      (∀ vc' ∈ raw, patternMatches vc'.slots value = true →
        vc'.slots.length ≤ vc.slots.length) ∧
      firstOfItsLength raw value vc ∧
      do_send slots (sortValues raw) eid value =
        some (runCalls (buildFmt slots eid value) eid vc.calls) ∧
      (vc.calls ≠ [] →
        runCalls (buildFmt slots eid value) eid vc.calls = ([], false)) := by
  obtain ⟨vc0, hmem0, hm0⟩ := h
  have hmem0' : vc0 ∈ sortValues raw := (sortValues_perm raw).mem_iff.2 hmem0
  cases hf : (sortValues raw).find? (fun c => patternMatches c.slots value) with
  | none =>
    rw [List.find?_eq_none] at hf
    exact absurd hm0 (by simp [hf vc0 hmem0'])
  | some vc =>
    obtain ⟨hp, s, t, heq, hs⟩ := find?_eq_some_split.1 hf
    have hsorted := sortValues_sorted raw
    rw [heq] at hsorted
    have hpair := List.pairwise_append.1 hsorted
    have hvc_t : ∀ y ∈ t, y.slots.length ≤ vc.slots.length :=
      (List.pairwise_cons.1 hpair.2.1).1
    refine ⟨vc, by rw [findValueCfg, hf], hp, ?_, ?_, ?_, ?_⟩
    · intro vc' hmem' hm'
      have hmem'' : vc' ∈ s ++ vc :: t := by
        rw [← heq]
        exact (sortValues_perm raw).mem_iff.2 hmem'
      rcases List.mem_append.1 hmem'' with hin | hin
      · exact absurd hm' (by simp [hs vc' hin])
      · rcases List.mem_cons.1 hin with rfl | hin
        · exact le_refl _
        · exact hvc_t vc' hin
    · rw [firstOfItsLength, filter_len_match, ← sortValues_stable,
        ← filter_len_match, heq, List.filter_append]
      have hfs : s.filter (fun c => patternMatches c.slots value &&
          (c.slots.length == vc.slots.length)) = [] := by
        rw [List.filter_eq_nil_iff]
        intro x hx
        simp [hs x hx]
      rw [hfs, List.nil_append]
      simp [List.filter_cons, hp]
    · show (findValueCfg (sortValues raw) value).map
        (fun c => runCalls (buildFmt slots eid value) eid c.calls) = _
      rw [findValueCfg, hf]
      rfl
    · intro hne
      cases hcalls : vc.calls with
      | nil => exact absurd hcalls hne
      | cons c rest => rfl

/-- Witness for C1: the three-rule demo table and the value `(1, 2)`,
matched first by the exact rule `demoV2`, whose single call is aborted
by the `TypeError`. -/
theorem do_send_first_matching_rule_witness :
    (∃ vc ∈ demoValues,
      patternMatches vc.slots [PyScalar.int 1, PyScalar.int 2] = true) ∧
    (∃ vc, findValueCfg (sortValues demoValues) [PyScalar.int 1, PyScalar.int 2] =
        some vc ∧
      patternMatches vc.slots [PyScalar.int 1, PyScalar.int 2] = true ∧
      (∀ vc' ∈ demoValues,
        patternMatches vc'.slots [PyScalar.int 1, PyScalar.int 2] = true →
        vc'.slots.length ≤ vc.slots.length) ∧
      firstOfItsLength demoValues [PyScalar.int 1, PyScalar.int 2] vc ∧
      do_send [] (sortValues demoValues) "e" [PyScalar.int 1, PyScalar.int 2] =
        some (runCalls (buildFmt [] "e" [PyScalar.int 1, PyScalar.int 2]) "e"
          vc.calls) ∧
      (vc.calls ≠ [] →
        runCalls (buildFmt [] "e" [PyScalar.int 1, PyScalar.int 2]) "e"
          vc.calls = ([], false))) :=
  ⟨⟨demoV2, List.mem_cons_of_mem _ (List.mem_cons_self _ _), by decide⟩,
   do_send_first_matching_rule [] demoValues "e"
     [PyScalar.int 1, PyScalar.int 2]
     ⟨demoV2, List.mem_cons_of_mem _ (List.mem_cons_self _ _), by decide⟩⟩

/-- C8 (code bug): each `do_send` iteration does operate on an
independent deep copy — `copy.deepcopy` touches no original address —
but the claimed substitution-on-the-copy never occurs:
`_populate_service_data` raises `TypeError` for every container
argument (`memo = set((data,))`, dict/list unhashable) before
performing a single write.  The configured templates are therefore
unmutated only vacuously: the heap when the exception escapes is the
post-copy heap, every original address holds its original object, and
reading back an original reference — a template's `data` root, as the
next `execute` call would — yields the unchanged template. -/
theorem execute_no_template_mutation (fuel fuel2 : Nat) (h : Heap)
    (root : HVal) (n : Nat)
    (hrefs : ∀ p ∈ h, ∀ b ∈ childRefs p.2, b < n) :
    (∀ (h2 : Heap) (b : Nat), populateHTop h2 (.ref b) = Option.none) ∧
    (∀ a, a < n → (heapAfterCall fuel h root n).look a = h.look a) ∧
    (∀ v : HVal, (∀ b, v = .ref b → b < n) →
      readBack fuel2 (heapAfterCall fuel h root n) v = readBack fuel2 h v) := by
  have hlow : ∀ a, a < n →
      (heapAfterCall fuel h root n).look a = h.look a := by
    intro a ha
    cases hc : deepcopyH fuel h root n with
    | none => simp [heapAfterCall, hc]
    | some t =>
      obtain ⟨hA, rootA, nA⟩ := t
      have heq : heapAfterCall fuel h root n = hA := by
        simp [heapAfterCall, hc]
      rw [heq]
      exact (deepcopyH_frame fuel h root n hA rootA nA hc).2.1 a ha
  refine ⟨fun h2 b => rfl, hlow, ?_⟩
  intro v hv
  exact readBack_congr _ _ n hlow
    (fun a ha o ho b hb => hrefs (a, o) (mem_of_look h a o ho) b hb)
    fuel2 v hv

/-- Witness for C8: a one-dict template heap; the copy is made
verbatim, the populate step raises, and the original address is
untouched. -/
theorem execute_no_template_mutation_witness :
    (∀ p ∈ demoHeap, ∀ b ∈ childRefs p.2, b < 1) ∧
    populateHTop (heapAfterCall 4 demoHeap (.ref 0) 1) (.ref 1) = Option.none ∧
    heapAfterCall 4 demoHeap (.ref 0) 1 = demoHeapCopied ∧
    (heapAfterCall 4 demoHeap (.ref 0) 1).look 0 = demoHeap.look 0 ∧
    readBack 4 (heapAfterCall 4 demoHeap (.ref 0) 1) (.ref 0) =
      readBack 4 demoHeap (.ref 0) :=
  ⟨by decide,
   (execute_no_template_mutation 4 4 demoHeap (.ref 0) 1 (by decide)).1
     (heapAfterCall 4 demoHeap (.ref 0) 1) 1,
   by decide,
   (execute_no_template_mutation 4 4 demoHeap (.ref 0) 1 (by decide)).2.1 0
     (by decide),
   (execute_no_template_mutation 4 4 demoHeap (.ref 0) 1 (by decide)).2.2
     (.ref 0) (fun b hb => by
        obtain rfl : 0 = b := by simpa using hb
        decide)⟩

end HassApps.Schedy.Generic2
